import Mathlib

/-!
# AnchorComply prototype — verification of the reconciliation core

Shallow embedding of `anchorcomply_prototype.py`:

* the Schema Normalizer helpers `norm_col`, `fuzzy_match` (including the
  `difflib.get_close_matches` / `SequenceMatcher.ratio` machinery they rely on)
  and the value coercion `to_num`;
* the Reconciliation Engine: the mismatch left-join (`merged` /
  `mismatch_flag`), the two duplicate detectors (`dup_by_no`,
  `dup_by_combo`), the late-filing scan (`late_rows`) and the summary counts.

Modelling conventions:

* pandas cells read with `dtype=str` are `Option String` (`none` = `NaN`);
* Python floats are modelled as exact rationals (`ℚ`); the special values
  `inf`, `-inf`, `nan` that `float(str)` can produce are modelled explicitly
  by the `PyFloat` type in the coercion layer, while the reconciliation layer
  works on already-coerced finite numeric fields (`ℚ`);
* a `ratio ≥ 0.6` comparison is modelled as the exact rational comparison
  `10 * M ≥ 3 * T` (for the string sizes that occur here the float rounding
  of `difflib` never disagrees with the exact comparison);
* `datetime.date` subtraction is modelled with a proleptic-Gregorian day
  count; uncaught Python exceptions are modelled as `Except.error`.
-/

/-- Decidable equality for `Except`, used to evaluate the checks (which can
surface an uncaught exception) on concrete inputs. -/
instance {e a : Type} [DecidableEq e] [DecidableEq a] :
    DecidableEq (Except e a) := fun x y =>
  match x, y with
  | .ok u, .ok v =>
    if h : u = v then .isTrue (by rw [h]) else .isFalse (by simp [h])
  | .error u, .error v =>
    if h : u = v then .isTrue (by rw [h]) else .isFalse (by simp [h])
  | .ok _, .error _ => .isFalse (by simp)
  | .error _, .ok _ => .isFalse (by simp)

/-! ## Calendar dates (`datetime.date`) -/

structure Date where
  y : Int
  m : Int
  d : Int
deriving DecidableEq

/-- Day count of a proleptic Gregorian calendar date (the standard
civil-from-days construction); differences of `daysFromCivil` agree with
Python `date` subtraction in days. -/
def daysFromCivil (dt : Date) : Int :=
  let y := if dt.m ≤ 2 then dt.y - 1 else dt.y
  let era := (if 0 ≤ y then y else y - 399) / 400
  let yoe := y - era * 400
  let mp := (dt.m + 9) % 12
  let doy := (153 * mp + 2) / 5 + dt.d - 1
  let doe := yoe * 365 + yoe / 4 - yoe / 100 + doy
  era * 146097 + doe - 719468

/-- `(a - b).days` for two Python dates. -/
def dateDiff (a b : Date) : Int :=
  daysFromCivil a - daysFromCivil b

/-! ## Late-filing check (`late_rows` loop of the source)

The source computes, for each GSTR-3B row,
`due = datetime.strptime(m + "-20", "%Y-%m-%d").date()` whenever the `month`
cell is a string of length ≥ 7.  `strptime` with that format succeeds exactly
when the month cell is `YYYY-MM` (four digits, a dash, two digits) with a
month in `1..12` and a year ≥ 1 (year 0 is outside `datetime`'s range); any
other string raises `ValueError`, which the `except` clause turns into
skipping the row — the same outcome as the `due = None` branch. -/

def digitsVal (ds : List Char) : Nat :=
  ds.foldl (fun acc c => 10 * acc + (c.toNat - '0'.toNat)) 0

/-- The due date the source derives from a `month` cell: the 20th of the
*stated* month itself (`m + "-20"`), `none` when the row would be skipped. -/
def parseMonthDue (s : String) : Option Date :=
  match s.toList with
  | [a, b, c, d, dash, e, f] =>
    if a.isDigit ∧ b.isDigit ∧ c.isDigit ∧ d.isDigit ∧ dash = '-'
        ∧ e.isDigit ∧ f.isDigit then
      let yy : Int := digitsVal [a, b, c, d]
      let mm : Int := digitsVal [e, f]
      if 1 ≤ yy ∧ 1 ≤ mm ∧ mm ≤ 12 then some ⟨yy, mm, 20⟩ else none
    else none
  | _ => none

/-- One GSTR-3B row after `materialize`: the `month` column is left as raw
text, `filing_date` has been through `parse_date_series` (`none` = `NaT`). -/
structure GstrRow where
  month : Option String
  filing_date : Option Date
deriving DecidableEq

/-- One entry of the source's `late_rows` list. -/
structure LateRow where
  month : Option String
  due_date : Date
  filing_date : Date
  days_late : Int
  estimated_fee : Int
deriving DecidableEq

/-- The `late_rows` accumulation loop: emit a finding when both dates are
available and `days_late = (filed - due).days > 0`, with
`estimated_fee = int(days_late * late_fee_per_day)`. -/
def late_rows (fee_per_day : Int) (rows : List GstrRow) : List LateRow :=
  rows.filterMap fun r =>
    match r.month.bind parseMonthDue, r.filing_date with
    | some due, some filed =>
      let dl := dateDiff filed due
      if 0 < dl then
        some ⟨r.month, due, filed, dl, dl * fee_per_day⟩
      else none
    | _, _ => none

/-- `total_potential_penalty = sum(r['estimated_fee'] for r in late_rows)`. -/
def total_potential_penalty (fee_per_day : Int) (rows : List GstrRow) : Int :=
  ((late_rows fee_per_day rows).map LateRow.estimated_fee).sum

/-! ## Canonical tables after `materialize`

`materialize` renames mapped columns and coerces `taxable_value` with
`to_num`; unmapped canonical columns are simply absent from the frame, so a
table carries per-column presence flags.  Rows keep all their original
columns; the residual (non-canonical) columns only matter for row identity
(`drop_duplicates`) and are collapsed into one `other` field. -/

structure SRow where
  invoice_no : Option String
  date : Option Date
  customer_gstin : Option String
  taxable_value : Rat
  other : String
deriving DecidableEq

structure SalesTable where
  hasInvoiceNo : Bool
  hasDate : Bool
  hasCustomer : Bool
  hasTaxable : Bool
  rows : List SRow
deriving DecidableEq

structure GRow where
  invoice_no : Option String
  taxable_value : Rat
deriving DecidableEq

structure Gstr1Table where
  hasInvoiceNo : Bool
  hasTaxable : Bool
  rows : List GRow
deriving DecidableEq

/-! ## Mismatch check (the `merged` frame)

The source left-joins `sales_df` with
`gstr1_df[['invoice_no','taxable_value']]` on `invoice_no` when the sales
frame has an `invoice_no` column, otherwise copies the sales frame with
`gstr1_taxable = NA`.  When GSTR-1 was not uploaded it is first replaced by
`pd.DataFrame(columns=[])`; the subsequent two-column selection then raises
`KeyError` (modelled as `Except.error`), as it does whenever either column
is missing from the GSTR-1 frame.  `merged['taxable_value']` falls back to a
zero series when sales has no `taxable_value` column. -/

/-- Absolute value on `ℚ`, written so it evaluates by kernel reduction. -/
def ratAbs (q : Rat) : Rat := if q < 0 then -q else q

/-- One row of the source's `merged` frame (`NA` in `gstr1_taxable` is
`none`). -/
structure MRow where
  sales : SRow
  taxable_value : Rat
  gstr1_taxable : Option Rat
deriving DecidableEq

/-- `merged['taxable_value']`: the sales value, or the zero fallback series
when the column is unmapped. -/
def salesTV (t : SalesTable) (s : SRow) : Rat :=
  if t.hasTaxable then s.taxable_value else 0

/-- The block of `merged` rows a single sales row contributes under the
pandas left join: one row per GSTR-1 row with an equal key, or a single
`NA` row when there is none. -/
def mergedRowsFor (t : SalesTable) (g1rows : List GRow) (s : SRow) : List MRow :=
  let ms := g1rows.filter fun g => decide (g.invoice_no = s.invoice_no)
  if ms.isEmpty then [⟨s, salesTV t s, none⟩]
  else ms.map fun g => ⟨s, salesTV t s, some g.taxable_value⟩

/-- `merged['mismatch_flag'] = merged['gstr1_taxable'].isnull() |
(merged['diff'] > 1.0)`. -/
def mismatch_flag (m : MRow) : Bool :=
  m.gstr1_taxable.isNone ||
    (match m.gstr1_taxable with
     | some v => decide (1 < ratAbs (m.taxable_value - v))
     | none => false)

/-- The `merged` frame, or the uncaught `KeyError` of the column selection. -/
def mismatchMerged (t : SalesTable) (gstr1 : Option Gstr1Table) :
    Except Unit (List MRow) :=
  let g := gstr1.getD ⟨false, false, []⟩
  if t.hasInvoiceNo then
    if g.hasInvoiceNo && g.hasTaxable then
      .ok (t.rows.flatMap (mergedRowsFor t g.rows))
    else .error ()
  else
    .ok (t.rows.map fun s => ⟨s, salesTV t s, none⟩)

/-- `mismatches = merged[merged['mismatch_flag']]`. -/
def mismatches (t : SalesTable) (gstr1 : Option Gstr1Table) :
    Except Unit (List MRow) :=
  (mismatchMerged t gstr1).map (List.filter mismatch_flag)

/-- The mismatch findings a single sales row contributes. -/
def mismatchFindingsFor (t : SalesTable) (g1rows : List GRow) (s : SRow) :
    List MRow :=
  (mergedRowsFor t g1rows s).filter mismatch_flag

/-! ## Duplicate check -/

/-- How many sales rows share `r`'s invoice number
(`duplicated(subset=['invoice_no'], keep=False)` flags `r` iff this is
at least 2; pandas treats `NaN` keys as equal to each other). -/
def invKeyCount (t : SalesTable) (r : SRow) : Nat :=
  t.rows.countP fun x => decide (x.invoice_no = r.invoice_no)

/-- `dup_by_no`: rows whose invoice number occurs at least twice, in order. -/
def dup_by_no (t : SalesTable) : List SRow :=
  if t.hasInvoiceNo then
    t.rows.filter fun r => decide (2 ≤ invKeyCount t r)
  else []

/-- Equality on the columns of `['taxable_value','date','customer_gstin']`
that are present in the sales frame (`combo_cols`). -/
def comboEq (t : SalesTable) (r x : SRow) : Bool :=
  (!t.hasTaxable || decide (r.taxable_value = x.taxable_value)) &&
  (!t.hasDate || decide (r.date = x.date)) &&
  (!t.hasCustomer || decide (r.customer_gstin = x.customer_gstin))

/-- `dup_by_combo`: rows repeated on the present combo columns; the check is
skipped (empty result) when none of the three columns exists. -/
def dup_by_combo (t : SalesTable) : List SRow :=
  if t.hasTaxable || t.hasDate || t.hasCustomer then
    t.rows.filter fun r => decide (2 ≤ t.rows.countP (comboEq t r))
  else []

/-- The summary's duplicate total:
`len(dup_by_no) + len(dup_by_combo)`. -/
def total_duplicates (t : SalesTable) : Nat :=
  (dup_by_no t).length + (dup_by_combo t).length

/-- Number of distinct records in the set union of the two detectors'
outputs (`pd.concat([dup_by_no, dup_by_combo]).drop_duplicates()`, the frame
the PDF's duplicates table is built from). -/
def duplicates_union_distinct (t : SalesTable) : Nat :=
  ((dup_by_no t) ++ (dup_by_combo t)).dedup.length

/-! ## Value coercion (`to_num`)

`to_num` receives cells of a `dtype=str` frame, so its input is a string or
`NaN` (`pd.isna` → `0.0`; the `isinstance(s, (int, float))` branch cannot
fire).  The string branch removes `','` and `')'`, turns `'('` into `'-'`,
strips surrounding whitespace and calls `float(...)`, with empty string and
any parse failure collapsing to `0.0`.

`float(str)` is modelled over ASCII text: it strips Unicode whitespace,
accepts an optional sign, the special literals `inf` / `infinity` / `nan`
(case-insensitive, producing non-finite values), and decimal/exponent
literals with PEP 515 underscores (each `_` strictly between digits).  The
value of a finite literal is kept as an exact rational (IEEE rounding and
gradual underflow of finite values are abstracted away), but a literal
whose exact value reaches the double overflow bound `2^1024 − 2^970`
becomes an infinity, exactly as `float` does.  Out of scope of this ASCII
model is CPython's transformation of non-ASCII Unicode decimal digits to
ASCII before parsing. -/

inductive PyFloat where
  | finite (q : Rat)
  | inf
  | ninf
  | nan
deriving DecidableEq

def PyFloat.isFinite : PyFloat → Bool
  | .finite _ => true
  | _ => false

def PyFloat.negate : PyFloat → PyFloat
  | .finite q => .finite (-q)
  | .inf => .ninf
  | .ninf => .inf
  | .nan => .nan

/-- Python `str.isspace()` / `str.strip()` whitespace: U+0009–U+000D,
U+001C–U+001F, U+0020, U+0085, U+00A0, U+1680, U+2000–U+200A, U+2028,
U+2029, U+202F, U+205F and U+3000. -/
def isWS (c : Char) : Bool :=
  let n := c.toNat
  (decide (9 ≤ n) && decide (n ≤ 13)) ||
  (decide (28 ≤ n) && decide (n ≤ 32)) ||
  decide (n = 133) || decide (n = 160) || decide (n = 5760) ||
  (decide (8192 ≤ n) && decide (n ≤ 8202)) ||
  decide (n = 8232) || decide (n = 8233) || decide (n = 8239) ||
  decide (n = 8287) || decide (n = 12288)

/-- Python `str.strip()` on a character list. -/
def stripWS (cs : List Char) : List Char :=
  ((cs.dropWhile isWS).reverse.dropWhile isWS).reverse

def digitsToRat (ds : List Char) : Rat := (digitsVal ds : Rat)

/-- The optional exponent tail of a float literal: empty, or
`e`/`E` followed by an optional sign and a nonempty digit string. -/
def parseExpTail (m : Rat) (cs : List Char) : Option Rat :=
  match cs with
  | [] => some m
  | e :: rest =>
    if e = 'e' ∨ e = 'E' then
      let (sgn, ds0) : Rat × List Char :=
        match rest with
        | '+' :: r => (1, r)
        | '-' :: r => (-1, r)
        | r => (1, r)
      let (ds, tail) := ds0.span Char.isDigit
      if ds.isEmpty ∨ ¬ tail.isEmpty then none
      else some (m * 10 ^ ((sgn * digitsToRat ds) : Rat).num)
    else none

/-- An unsigned decimal float literal: `digits [. digits] [exp]` or
`. digits [exp]`, requiring at least one mantissa digit and full
consumption of the input. -/
def parseDecimal (cs : List Char) : Option Rat :=
  let (ip, r1) := cs.span Char.isDigit
  match r1 with
  | '.' :: r2 =>
    let (fp, r3) := r2.span Char.isDigit
    if ip.isEmpty ∧ fp.isEmpty then none
    else parseExpTail (digitsToRat ip + digitsToRat fp / 10 ^ fp.length) r3
  | _ => if ip.isEmpty then none else parseExpTail (digitsToRat ip) r1

/-- PEP 515 side condition for one underscore: the preceding and the
following character exist and are digits. -/
def underscoreOk (prev : Option Char) (rest : List Char) : Bool :=
  match prev, rest with
  | some p, d :: _ => p.isDigit && d.isDigit
  | _, _ => false

/-- PEP 515 underscore removal: every `_` must sit strictly between two
digits; the first argument is the preceding character, if any. -/
def removeUnderscoresAux : Option Char → List Char → Option (List Char)
  | _, [] => some []
  | prev, c :: rest =>
    if c = '_' then
      if underscoreOk prev rest then removeUnderscoresAux (some c) rest
      else none
    else (removeUnderscoresAux (some c) rest).map (c :: ·)

def removeUnderscores (cs : List Char) : Option (List Char) :=
  removeUnderscoresAux none cs

/-- The smallest positive real that rounds to `inf` as an IEEE double
(round to nearest, ties to even): `2^1024 − 2^970`. -/
def doubleOverflowThreshold : Int := (((1 <<< 1024) - (1 <<< 970) : Nat) : Int)

/-- Does the exact rational value of a literal overflow the double range
(so that `float` returns an infinity)? -/
def overflowsDouble (q : Rat) : Bool :=
  decide (doubleOverflowThreshold * (q.den : Int) ≤ q.num)

/-- Is a (sign-free, underscore-free) text one of the special literals
`inf` / `infinity` / `nan`, case-insensitively? -/
def isInfNanLit (cs : List Char) : Bool :=
  let l := cs.map Char.toLower
  decide (l = "inf".toList) || decide (l = "infinity".toList) ||
    decide (l = "nan".toList)

/-- The body of `float(str)` after the optional sign: validate and drop
PEP 515 underscores, then accept the special literals or a decimal
literal, turning an overflowing decimal into an infinity. -/
def parseUnsignedPy (cs : List Char) : Option PyFloat :=
  (removeUnderscores cs).bind fun cs2 =>
    if isInfNanLit cs2 = true then
      if (cs2.map Char.toLower) = "nan".toList then some .nan else some .inf
    else (parseDecimal cs2).map fun q =>
      if overflowsDouble q then PyFloat.inf else .finite q

/-- The optional leading sign of `float(str)`. -/
def pyFloatSigned : List Char → Option PyFloat
  | [] => none
  | c :: r =>
    if c = '+' then parseUnsignedPy r
    else if c = '-' then (parseUnsignedPy r).map PyFloat.negate
    else parseUnsignedPy (c :: r)

/-- Python `float(str)` on an already-cleaned character list (`none` means
`ValueError`). -/
def pyFloatOfChars (cs : List Char) : Option PyFloat :=
  pyFloatSigned (stripWS cs)

/-- Per-character effect of
`.replace(',', '').replace('(', '-').replace(')', '')`. -/
def replChar (c : Char) : Option Char :=
  if c = ',' then none
  else if c = '(' then some '-'
  else if c = ')' then none
  else some c

/-- The character-level cleanup of `to_num`: the three replacements
followed by `.strip()`. -/
def cleanChars (s : String) : List Char :=
  stripWS (s.toList.filterMap replChar)

/-- `to_num` on a `dtype=str` cell (`none` = `NaN`). -/
def to_num (cell : Option String) : PyFloat :=
  match cell with
  | none => .finite 0
  | some s =>
    let cleaned := cleanChars s
    if cleaned.isEmpty then .finite 0
    else
      match pyFloatOfChars cleaned with
      | some v => v
      | none => .finite 0

/-- Drops the optional leading sign of a float literal, mirroring
`pyFloatSigned`. -/
def stripSign : List Char → List Char
  | [] => []
  | c :: r => if c = '+' ∨ c = '-' then r else c :: r

/-- Classifies a cleaned, sign-stripped cell text as a source of a
non-finite `float` value: after PEP 515 underscore removal it is an
`inf` / `infinity` / `nan` literal, or a decimal literal whose exact value
reaches the double overflow bound. -/
def nonfiniteSource (cs : List Char) : Bool :=
  ((removeUnderscores (stripSign cs)).map fun cs2 =>
    isInfNanLit cs2 || ((parseDecimal cs2).map overflowsDouble).getD false).getD
    false

/-! ## Schema Normalizer (`norm_col`, `fuzzy_match`)

`fuzzy_match` builds `cols_norm = {norm_col(c): c for c in columns}` (a dict
in insertion order of first occurrence, last value winning on key
collisions) and then, for each candidate alias in order, asks
`difflib.get_close_matches(norm_col(cand), norm_map, n=1, cutoff=0.6)`,
returning the original column of the first alias that yields any match.

`get_close_matches` keeps the possibilities whose
`SequenceMatcher(a=possibility, b=word).ratio()` clears the cutoff and
takes `heapq.nlargest(1, ...)` over `(ratio, possibility)` pairs, i.e. the
maximum by ratio and then by string order.  With no junk characters and
strings far below the autojunk threshold, `ratio()` is `2*M/T` where `T` is
the sum of the lengths and `M` the total size of the matching blocks: the
longest common run (earliest in `a`, then earliest in `b`, on ties),
recursively on both sides.  Ratios are compared exactly (cross
multiplication), which agrees with `difflib`'s float comparisons at these
string sizes. -/

/-- `norm_col`: lowercase, keep only `[a-z0-9]` (labels here are ASCII). -/
def norm_col (s : String) : String :=
  String.mk (s.toList.filterMap fun c =>
    let lc := c.toLower
    if ('a' ≤ lc ∧ lc ≤ 'z') ∨ ('0' ≤ lc ∧ lc ≤ '9') then some lc else none)

/-- Length of the common run of two strings starting at their heads. -/
def commonRun : List Char → List Char → Nat
  | a :: as, b :: bs => if a = b then commonRun as bs + 1 else 0
  | _, _ => 0

/-- `SequenceMatcher.find_longest_match` over whole strings (no junk): the
longest common run, earliest start in `a` and then in `b` on ties,
returned as `(i, j, size)`. -/
def findLongestMatch (a b : List Char) : Nat × Nat × Nat :=
  ((List.range (a.length + 1)).flatMap fun i =>
      (List.range (b.length + 1)).map fun j => (i, j)).foldl
    (fun best p =>
      let k := commonRun (a.drop p.1) (b.drop p.2)
      if best.2.2 < k then (p.1, p.2, k) else best)
    (0, 0, 0)

/-- Total size `M` of the matching blocks of `get_matching_blocks`
(fuel-driven recursion on both sides of the longest match). -/
def matchTotalAux : Nat → List Char → List Char → Nat
  | 0, _, _ => 0
  | fuel + 1, a, b =>
    let (i, j, k) := findLongestMatch a b
    if k = 0 then 0
    else
      k + matchTotalAux fuel (a.take i) (b.take j)
        + matchTotalAux fuel (a.drop (i + k)) (b.drop (j + k))

def matchTotal (a b : List Char) : Nat :=
  matchTotalAux (a.length + b.length + 1) a b

/-- `ratio(a, b) ≥ 0.6`, compared exactly: `2M/T ≥ 3/5 ↔ 10M ≥ 3T`. -/
def ratioGE (a b : List Char) : Bool :=
  decide (3 * (a.length + b.length) ≤ 10 * matchTotal a b)

/-- Python string `<` (code-point lexicographic). -/
def charsLt : List Char → List Char → Bool
  | [], [] => false
  | [], _ :: _ => true
  | _ :: _, [] => false
  | a :: as, b :: bs => if a = b then charsLt as bs else decide (a.toNat < b.toNat)

/-- `(ratio, string)` tuple comparison of two possibilities against the same
word: ratio compared by cross multiplication, ties by string order. -/
def scoreGt (w : List Char) (k b : String) : Bool :=
  let mk := matchTotal k.toList w
  let mb := matchTotal b.toList w
  let tk := k.toList.length + w.length
  let tb := b.toList.length + w.length
  decide (mb * tk < mk * tb) ||
    (decide (mb * tk = mk * tb) && charsLt b.toList k.toList)

/-- `heapq.nlargest(1, ...)` over the qualifying possibilities: the maximum
`(ratio, possibility)` pair (the order is total on distinct strings). -/
def pickMax (w : List Char) : List String → Option String
  | [] => none
  | k :: ks =>
    match pickMax w ks with
    | none => some k
    | some b => if scoreGt w k b then some k else some b

/-- `get_close_matches(word, keys, n=1, cutoff=0.6)` as used here: `none`
when nothing clears the cutoff. -/
def bestMatch (w : List Char) (keys : List String) : Option String :=
  pickMax w (keys.filter fun k => ratioGE k.toList w)

/-- Insertion into the `cols_norm` dict: key order of first insertion,
last value wins. -/
def dictInsert (l : List (String × String)) (k v : String) :
    List (String × String) :=
  if l.any fun p => decide (p.1 = k) then
    l.map fun p => if p.1 = k then (k, v) else p
  else l ++ [(k, v)]

/-- `cols_norm = {norm_col(c): c for c in columns}`. -/
def cols_norm (columns : List String) : List (String × String) :=
  columns.foldl (fun l c => dictInsert l (norm_col c) c) []

/-- Dict lookup `cols_norm[k]` (`none` would be a `KeyError`; it cannot
happen for keys produced by `bestMatch`). -/
def dictGet (l : List (String × String)) (k : String) : Option String :=
  (l.find? fun p => decide (p.1 = k)).map Prod.snd

/-- `fuzzy_match(columns, candidates, cutoff=0.6)`. -/
def fuzzy_match (columns candidates : List String) : Option String :=
  let d := cols_norm columns
  let keys := d.map Prod.fst
  candidates.findSome? fun cand =>
    (bestMatch (norm_col cand).toList keys).bind fun k => dictGet d k

/-! ## Helper lemmas -/

/-- Counting along a filter whose predicate is implied by the counted one. -/
theorem countP_filter_of_imp {α : Type} (l : List α) (p q : α → Bool)
    (h : ∀ a ∈ l, p a = true → q a = true) :
    (l.filter q).countP p = l.countP p := by
  induction l with
  | nil => rfl
  | cons a tl ih =>
    have ih' := ih fun x hx => h x (List.mem_cons_of_mem a hx)
    by_cases hq : q a = true
    · simp [List.filter_cons, hq, List.countP_cons, ih']
    · have hp : p a = false := by
        cases hpa : p a with
        | false => rfl
        | true => exact absurd (h a (List.mem_cons_self a tl) hpa) hq
      simp [List.filter_cons, hq, List.countP_cons, hp, ih']

/-- `filter` distributes over `flatMap`. -/
theorem filter_flatMap {α β : Type} (l : List α) (f : α → List β)
    (p : β → Bool) :
    (l.flatMap f).filter p = l.flatMap fun a => (f a).filter p := by
  induction l with
  | nil => rfl
  | cons a tl ih => simp [List.flatMap_cons, List.filter_append, ih]

/-- `pickMax` returns an element of its input list. -/
theorem pickMax_mem (w : List Char) (l : List String) (k : String)
    (h : pickMax w l = some k) : k ∈ l := by
  induction l with
  | nil => simp [pickMax] at h
  | cons a tl ih =>
    rw [pickMax] at h
    cases hp : pickMax w tl with
    | none => rw [hp] at h; simp at h; simp [h]
    | some b =>
      rw [hp] at h
      by_cases hs : scoreGt w a b = true
      · simp [hs] at h; simp [h]
      · simp [hs] at h
        exact List.mem_cons_of_mem a (ih (h ▸ hp))

/-- `bestMatch` only returns keys of the dict it searched. -/
theorem bestMatch_mem (w : List Char) (keys : List String) (k : String)
    (h : bestMatch w keys = some k) : k ∈ keys :=
  List.mem_of_mem_filter (pickMax_mem w _ k h)

/-- Looking up a key that is present in the association list succeeds. -/
theorem dictGet_isSome {l : List (String × String)} {k : String}
    (h : k ∈ l.map Prod.fst) : ∃ v, dictGet l k = some v := by
  have : ∃ p ∈ l, p.1 = k := by simpa using h
  obtain ⟨p, hp, hk⟩ := this
  have : (l.find? fun q => decide (q.1 = k)).isSome := by
    rw [List.find?_isSome]
    exact ⟨p, hp, by simp [hk]⟩
  obtain ⟨q, hq⟩ := Option.isSome_iff_exists.mp this
  exact ⟨q.2, by simp [dictGet, hq]⟩

/-- With both canonical columns present on each side, the merge succeeds and
the mismatch rows decompose per sales record. -/
theorem mismatches_ok (t : SalesTable) (g : Gstr1Table)
    (hsi : t.hasInvoiceNo = true) (hgi : g.hasInvoiceNo = true)
    (hgt : g.hasTaxable = true) :
    mismatches t (some g) =
      .ok (t.rows.flatMap (mismatchFindingsFor t g.rows)) := by
  simp only [mismatches, mismatchMerged, Option.getD_some, hsi, hgi, hgt,
    Bool.and_self, if_true, Except.map, mismatchFindingsFor]
  rw [filter_flatMap]
  rfl

/-- Per-record shape of the mismatch findings: exactly one finding when the
invoice number has no GSTR-1 counterpart, and otherwise one finding per
counterpart whose taxable value differs by more than the tolerance. -/
theorem mismatchFindingsFor_length (t : SalesTable) (g1rows : List GRow)
    (s : SRow) (hst : t.hasTaxable = true) :
    (mismatchFindingsFor t g1rows s).length =
      if (g1rows.filter fun gr => decide (gr.invoice_no = s.invoice_no)).isEmpty
      then 1
      else (g1rows.filter fun gr => decide (gr.invoice_no = s.invoice_no)).countP
        fun gr => decide (1 < ratAbs (s.taxable_value - gr.taxable_value)) := by
  have hstv : salesTV t s = s.taxable_value := by simp [salesTV, hst]
  unfold mismatchFindingsFor mergedRowsFor
  set ms := g1rows.filter fun gr => decide (gr.invoice_no = s.invoice_no) with hms
  by_cases h : ms.isEmpty
  · simp [h, mismatch_flag]
  · simp only [h, if_false, Bool.false_eq_true]
    rw [List.filter_map]
    simp only [List.length_map, ← List.countP_eq_length_filter]
    apply List.countP_congr
    intro gr _
    simp [Function.comp, mismatch_flag, hstv]

/-- The head surviving a `dropWhile` fails the predicate. -/
theorem dropWhile_head_false (p : Char → Bool) :
    ∀ (l : List Char) (c : Char) (cs : List Char),
      l.dropWhile p = c :: cs → p c = false := by
  intro l
  induction l with
  | nil => intro c cs h; simp at h
  | cons a tl ih =>
    intro c cs h
    by_cases hp : p a = true
    · rw [List.dropWhile_cons, if_pos hp] at h
      exact ih c cs h
    · rw [List.dropWhile_cons, if_neg hp] at h
      cases h
      exact Bool.not_eq_true _ ▸ hp

/-- A list whose head fails the predicate is untouched by `dropWhile`. -/
theorem dropWhile_eq_self_of_head (p : Char → Bool) (l : List Char)
    (h : ∀ c cs, l = c :: cs → p c = false) : l.dropWhile p = l := by
  cases l with
  | nil => rfl
  | cons a tl => rw [List.dropWhile_cons, if_neg]; simp [h a tl rfl]

/-- `dropWhile` is idempotent. -/
theorem dropWhile_dropWhile (p : Char → Bool) (l : List Char) :
    (l.dropWhile p).dropWhile p = l.dropWhile p := by
  induction l with
  | nil => rfl
  | cons a tl ih =>
    by_cases hp : p a = true
    · rw [List.dropWhile_cons, if_pos hp, ih]
    · rw [List.dropWhile_cons, if_neg hp, List.dropWhile_cons, if_neg hp]

/-- Stripping whitespace twice is the same as stripping once. -/
theorem stripWS_idem (l : List Char) : stripWS (stripWS l) = stripWS l := by
  unfold stripWS
  set m := l.dropWhile isWS with hm
  set r := m.reverse.dropWhile isWS with hr
  have h1 : r.reverse.dropWhile isWS = r.reverse := by
    apply dropWhile_eq_self_of_head
    intro c cs hc
    obtain ⟨t, ht⟩ := List.dropWhile_suffix (l := m.reverse) isWS
    have h2 : t ++ r = m.reverse := ht
    have hmr : m = r.reverse ++ t.reverse := by
      calc m = m.reverse.reverse := (List.reverse_reverse m).symm
        _ = (t ++ r).reverse := by rw [h2]
        _ = r.reverse ++ t.reverse := by rw [List.reverse_append]
    have hm2 : m = c :: (cs ++ t.reverse) := by rw [hmr, hc]; simp
    exact dropWhile_head_false isWS l c _ (by rw [← hm2, hm])
  rw [h1, List.reverse_reverse, hr, dropWhile_dropWhile]

/-- Decimal digits are below the basic-latin uppercase range, so `lower()`
leaves them alone. -/
theorem toLower_of_digit {c : Char} (h : c.isDigit = true) : c.toLower = c := by
  simp [Char.isDigit] at h
  obtain ⟨h1, h2⟩ := h
  unfold Char.toLower
  have h3 : c.toNat ≤ 57 := UInt32.toNat_le_of_le (by norm_num [UInt32.size]) h2
  rw [if_neg]
  omega

/-- Digits are not whitespace. -/
theorem isWS_of_digit {c : Char} (h : c.isDigit = true) : isWS c = false := by
  simp [Char.isDigit] at h
  obtain ⟨h1, h2⟩ := h
  have h3 : 48 ≤ c.toNat := UInt32.le_toNat_of_le (by norm_num [UInt32.size]) h1
  have h4 : c.toNat ≤ 57 := UInt32.toNat_le_of_le (by norm_num [UInt32.size]) h2
  simp only [isWS, Bool.or_eq_false_iff, Bool.and_eq_false_iff,
    decide_eq_false_iff_not]
  omega

/-- The cleanup replacements leave digits alone. -/
theorem replChar_of_digit {c : Char} (h : c.isDigit = true) :
    replChar c = some c := by
  have h1 : c ≠ ',' := by intro he; subst he; simp at h
  have h2 : c ≠ '(' := by intro he; subst he; simp at h
  have h3 : c ≠ ')' := by intro he; subst he; simp at h
  simp [replChar, h1, h2, h3]

/-- `dropWhile` leaves a list of non-matching characters alone. -/
theorem dropWhile_eq_self_of_all (p : Char → Bool) (l : List Char)
    (h : ∀ c ∈ l, p c = false) : l.dropWhile p = l := by
  apply dropWhile_eq_self_of_head
  intro c cs hc
  exact h c (by rw [hc]; exact List.mem_cons_self c cs)

/-- Stripping a list with no whitespace at all is the identity. -/
theorem stripWS_eq_self (l : List Char) (h : ∀ c ∈ l, isWS c = false) :
    stripWS l = l := by
  unfold stripWS
  rw [dropWhile_eq_self_of_all isWS l h,
    dropWhile_eq_self_of_all isWS l.reverse
      (fun c hc => h c (List.mem_reverse.mp hc)),
    List.reverse_reverse]

/-- An all-digit list cannot start with a letter. -/
theorem all_digits_ne {ds : List Char} (h : ds.all Char.isDigit = true)
    {c : Char} (hc : c.isDigit = false) (cs : List Char) : ds ≠ c :: cs := by
  intro he
  subst he
  simp [List.all_cons] at h
  rw [hc] at h
  exact absurd h.1 (by simp)

/-- `span` consumes an all-digit list completely. -/
theorem span_of_all_digits {ds : List Char} (h : ds.all Char.isDigit = true) :
    ds.span Char.isDigit = (ds, []) := by
  rw [List.span_eq_take_drop]
  rw [List.all_eq_true] at h
  rw [List.takeWhile_eq_self_iff.mpr h,
    List.dropWhile_eq_nil_iff.mpr fun x hx => h x hx]

/-- A nonempty all-digit literal parses as the plain decimal value. -/
theorem parseDecimal_of_digits {ds : List Char} (hne : ds ≠ [])
    (h : ds.all Char.isDigit = true) :
    parseDecimal ds = some (digitsToRat ds) := by
  unfold parseDecimal
  rw [span_of_all_digits h]
  have hni : ds.isEmpty = false := by
    cases ds with
    | nil => exact absurd rfl hne
    | cons a tl => rfl
  simp [hni, parseExpTail]

/-- Digits contain no underscore. -/
theorem digit_ne_underscore {c : Char} (h : c.isDigit = true) : c ≠ '_' := by
  intro he
  subst he
  simp at h

/-- A list without underscores passes PEP 515 validation unchanged. -/
theorem removeUnderscoresAux_id (cs : List Char) (h : ∀ c ∈ cs, c ≠ '_') :
    ∀ prev : Option Char, removeUnderscoresAux prev cs = some cs := by
  induction cs with
  | nil => intro prev; rfl
  | cons c rest ih =>
    intro prev
    have hcne : ¬ c = '_' := h c (List.mem_cons_self c rest)
    simp only [removeUnderscoresAux, if_neg hcne,
      ih (fun x hx => h x (List.mem_cons_of_mem c hx)) (some c), Option.map_some']

theorem removeUnderscores_id {cs : List Char} (h : ∀ c ∈ cs, c ≠ '_') :
    removeUnderscores cs = some cs :=
  removeUnderscoresAux_id cs h none

/-- An all-digit literal is no special `inf` / `nan` literal. -/
theorem isInfNanLit_of_digits {ds : List Char}
    (h : ds.all Char.isDigit = true) : isInfNanLit ds = false := by
  have hmap : ds.map Char.toLower = ds := by
    rw [List.map_congr_left fun c hc =>
      toLower_of_digit (List.all_eq_true.mp h c hc)]
    exact List.map_id ds
  have hd : ∀ (c : Char) (cs : List Char), c.isDigit = false → ds ≠ c :: cs :=
    fun c cs hc => all_digits_ne h hc cs
  simp only [isInfNanLit, hmap, Bool.or_eq_false_iff,
    decide_eq_false_iff_not]
  exact ⟨⟨hd 'i' ['n', 'f'] (by decide),
    hd 'i' ['n', 'f', 'i', 'n', 'i', 't', 'y'] (by decide)⟩,
    hd 'n' ['a', 'n'] (by decide)⟩

/-- A nonempty all-digit literal is read by `float` as its decimal value,
subject to the overflow check. -/
theorem parseUnsignedPy_of_digits {ds : List Char} (hne : ds ≠ [])
    (h : ds.all Char.isDigit = true) :
    parseUnsignedPy ds =
      some (if overflowsDouble (digitsToRat ds) then PyFloat.inf
            else .finite (digitsToRat ds)) := by
  have hnu : removeUnderscores ds = some ds :=
    removeUnderscores_id fun c hc =>
      digit_ne_underscore (List.all_eq_true.mp h c hc)
  have hlit : isInfNanLit ds = false := isInfNanLit_of_digits h
  unfold parseUnsignedPy
  rw [hnu]
  simp only [Option.some_bind, hlit, Bool.false_eq_true, if_false]
  rw [parseDecimal_of_digits hne h]
  rfl

/-- The cleanup of a parenthesized all-digit amount is the negated literal. -/
theorem cleanChars_paren_digits {ds : List Char}
    (h : ds.all Char.isDigit = true) :
    cleanChars (String.mk ('(' :: ds ++ [')'])) = '-' :: ds := by
  unfold cleanChars
  have htl : (String.mk ('(' :: ds ++ [')'])).toList = '(' :: ds ++ [')'] := rfl
  rw [htl]
  have hds : ds.filterMap replChar = ds := by
    rw [show ds.filterMap replChar = ds.filterMap some by
      apply List.filterMap_congr
      intro c hc
      rw [replChar_of_digit (List.all_eq_true.mp h c hc)]]
    exact List.filterMap_some ds
  have hfm : ('(' :: ds ++ [')']).filterMap replChar = '-' :: ds := by
    simp only [List.filterMap_cons, List.filterMap_append,
      show replChar '(' = some '-' from rfl, show replChar ')' = none from rfl]
    simp [hds]
  rw [hfm]
  apply stripWS_eq_self
  intro c hc
  rcases List.mem_cons.mp hc with h1 | h2
  · subst h1; rfl
  · exact isWS_of_digit (List.all_eq_true.mp h c h2)

/-- `float` on a minus sign followed by non-overflowing digits is the
negated value. -/
theorem pyFloatOfChars_neg_digits {ds : List Char} (hne : ds ≠ [])
    (h : ds.all Char.isDigit = true)
    (hov : overflowsDouble (digitsToRat ds) = false) :
    pyFloatOfChars ('-' :: ds) = some (.finite (-(digitsToRat ds))) := by
  unfold pyFloatOfChars
  have hs : stripWS ('-' :: ds) = '-' :: ds := by
    apply stripWS_eq_self
    intro c hc
    rcases List.mem_cons.mp hc with h1 | h2
    · subst h1; rfl
    · exact isWS_of_digit (List.all_eq_true.mp h c h2)
  rw [hs]
  simp only [pyFloatSigned, Char.reduceEq, reduceIte]
  rw [parseUnsignedPy_of_digits hne h]
  simp only [hov, Bool.false_eq_true, if_false]
  rfl

/-- Negation preserves non-finiteness (and finiteness). -/
theorem negate_isFinite (v : PyFloat) : v.negate.isFinite = v.isFinite := by
  cases v <;> rfl

/-- `float(str)` produces a non-finite value only from an `inf` /
`infinity` / `nan` literal or an overflowing decimal literal (after
PEP 515 underscore removal). -/
theorem parseUnsignedPy_nonfinite {cs : List Char} {v : PyFloat}
    (h : parseUnsignedPy cs = some v) (hv : v.isFinite = false) :
    ∃ cs2, removeUnderscores cs = some cs2 ∧
      (isInfNanLit cs2 = true ∨
        ∃ q, parseDecimal cs2 = some q ∧ overflowsDouble q = true) := by
  unfold parseUnsignedPy at h
  cases hr : removeUnderscores cs with
  | none => rw [hr] at h; simp at h
  | some cs2 =>
    rw [hr] at h
    simp only [Option.some_bind] at h
    refine ⟨cs2, rfl, ?_⟩
    by_cases h1 : isInfNanLit cs2 = true
    · exact Or.inl h1
    · rw [if_neg h1] at h
      cases hq : parseDecimal cs2 with
      | none => rw [hq] at h; simp at h
      | some q =>
        rw [hq] at h
        simp at h
        by_cases hov : overflowsDouble q = true
        · exact Or.inr ⟨q, rfl, hov⟩
        · exfalso
          rw [← h, if_neg hov] at hv
          simp [PyFloat.isFinite] at hv

/-- A non-finite `float(str)` result classifies the stripped, sign-stripped
text as a non-finite source (special literal or overflowing decimal). -/
theorem pyFloatOfChars_nonfinite {cs : List Char} {v : PyFloat}
    (h : pyFloatOfChars cs = some v) (hv : v.isFinite = false) :
    nonfiniteSource (stripWS cs) = true := by
  unfold pyFloatOfChars at h
  cases hs : stripWS cs with
  | nil => rw [hs] at h; simp [pyFloatSigned] at h
  | cons c r =>
    rw [hs] at h
    simp only [pyFloatSigned] at h
    unfold nonfiniteSource
    by_cases hc1 : c = '+'
    · subst hc1
      rw [if_pos rfl] at h
      obtain ⟨cs2, hr, hcase⟩ := parseUnsignedPy_nonfinite h hv
      rw [show stripSign ('+' :: r) = r by simp [stripSign], hr]
      rcases hcase with h3 | ⟨q, hq, hovf⟩
      · simp [h3]
      · simp [hq, hovf]
    · rw [if_neg hc1] at h
      by_cases hc2 : c = '-'
      · subst hc2
        rw [if_pos rfl] at h
        cases hu : parseUnsignedPy r with
        | none => rw [hu] at h; simp at h
        | some u =>
          rw [hu] at h
          simp at h
          have hu2 : u.isFinite = false := by
            rw [← negate_isFinite u, h]
            exact hv
          obtain ⟨cs2, hr, hcase⟩ := parseUnsignedPy_nonfinite hu hu2
          rw [show stripSign ('-' :: r) = r by simp [stripSign], hr]
          rcases hcase with h3 | ⟨q, hq, hovf⟩
          · simp [h3]
          · simp [hq, hovf]
      · rw [if_neg hc2] at h
        obtain ⟨cs2, hr, hcase⟩ := parseUnsignedPy_nonfinite h hv
        have hcc : ¬ (c = '+' ∨ c = '-') := by
          rintro (hx | hx)
          · exact hc1 hx
          · exact hc2 hx
        rw [show stripSign (c :: r) = c :: r by simp [stripSign, hcc], hr]
        rcases hcase with h3 | ⟨q, hq, hovf⟩
        · simp [h3]
        · simp [hq, hovf]

/-! ## Claim theorems -/

/-- C1: the late-filing check does NOT use the 20th of the month following
the stated period.  It parses `m + "-20"`, i.e. the 20th of the stated month
itself: for month `"2024-01"` the due date is 2024-01-20, so filing on
2024-02-20 yields a finding with 31 days late (fee 31 × 50 = 1550), and
filing on 2024-02-25 yields 36 days late — where the claim (and the
program's own help text, "due = 20th of next month") expects no finding
resp. 5 days late. -/
theorem late_filing_due_in_stated_month :
    late_rows 50 [⟨some "2024-01", some ⟨2024, 2, 20⟩⟩] =
      [⟨some "2024-01", ⟨2024, 1, 20⟩, ⟨2024, 2, 20⟩, 31, 1550⟩]
    ∧ (late_rows 50 [⟨some "2024-01", some ⟨2024, 2, 25⟩⟩]).map
        LateRow.days_late = [36] :=
  ⟨by decide, by decide⟩

/-- C3: with a Sales table that has an `invoice_no` column and no uploaded
GSTR-1 extract, the mismatch check raises `KeyError` (selecting
`['invoice_no','taxable_value']` from the empty fallback frame) instead of
returning an empty finding set; the late-filing check does tolerate an
empty log. -/
theorem mismatch_check_raises_on_absent_gstr1 :
    mismatches ⟨true, true, true, true, [⟨some "A", none, none, 10, ""⟩]⟩
        none = .error ()
    ∧ late_rows 50 [] = [] :=
  ⟨by decide, rfl⟩

/-- C5 (amended): `to_num` is total (never raises): a missing cell and any
unparsable text coerce to exactly 0.0, a parenthesized number within the
double range coerces to its negative — but not every result is finite:
when the cleaned cell text is an `inf` / `infinity` / `nan` literal or a
decimal literal whose value overflows the double range, the non-finite
value passes through to the output. -/
theorem to_num_total_and_coercion :
    to_num none = PyFloat.finite 0
    ∧ (∀ s : String,
        pyFloatOfChars (cleanChars s) = none → to_num (some s) = .finite 0)
    ∧ (∀ ds : List Char, ds ≠ [] → ds.all Char.isDigit = true →
        overflowsDouble (digitsToRat ds) = false →
        to_num (some (String.mk ('(' :: ds ++ [')']))) =
          .finite (-(digitsToRat ds)))
    ∧ (∀ s : String, (to_num (some s)).isFinite = false →
        nonfiniteSource (cleanChars s) = true) := by
  refine ⟨rfl, ?_, ?_, ?_⟩
  · intro s h
    by_cases he : (cleanChars s).isEmpty
    · simp [to_num, he]
    · simp [to_num, he, h]
  · intro ds hne h hov
    have hc := cleanChars_paren_digits h
    have hp := pyFloatOfChars_neg_digits hne h hov
    simp only [to_num]
    rw [hc, hp]
    rfl
  · intro s h
    by_cases he : (cleanChars s).isEmpty
    · exfalso
      simp [to_num, he, PyFloat.isFinite] at h
    · cases hp : pyFloatOfChars (cleanChars s) with
      | none =>
        exfalso
        simp [to_num, he, hp, PyFloat.isFinite] at h
      | some v =>
        have hv : v.isFinite = false := by
          simpa [to_num, he, hp] using h
        have hfin := pyFloatOfChars_nonfinite hp hv
        rwa [show stripWS (cleanChars s) = cleanChars s from stripWS_idem _]
          at hfin

/-- Witness for C5's amended theorem at concrete cells: unparsable text,
a parenthesized amount, and the non-finite literal `"inf"`. -/
theorem to_num_total_and_coercion_witness :
    to_num (some "abc") = .finite 0
    ∧ to_num (some (String.mk ['(', '1', '2', '3', ')'])) =
        .finite (-(digitsToRat ['1', '2', '3']))
    ∧ nonfiniteSource (cleanChars "inf") = true :=
  ⟨to_num_total_and_coercion.2.1 "abc" (by decide),
   to_num_total_and_coercion.2.2.1 ['1', '2', '3'] (by decide) (by decide)
     (by decide),
   to_num_total_and_coercion.2.2.2 "inf" (by decide)⟩

/-- C5 counterexample: a cell whose text is `"inf"` (or `"nan"`) is passed
through by `to_num` as a non-finite value, refuting "every numeric field of
every emitted CanonicalRecord is a finite real number". -/
theorem to_num_emits_nonfinite :
    to_num (some "inf") = PyFloat.inf
    ∧ (to_num (some "inf")).isFinite = false
    ∧ to_num (some "nan") = PyFloat.nan :=
  ⟨by decide, by decide, by decide⟩

/-- Coercion fidelity: PEP 515 underscores between digits are accepted
(`float("1_000") = 1000.0`). -/
theorem to_num_underscored_literal :
    to_num (some "1_000") = .finite (digitsToRat ['1', '0', '0', '0']) := by
  decide

set_option maxRecDepth 100000 in
/-- Coercion fidelity: a decimal literal beyond the double range becomes an
infinity (`float("2" + 308 * "0") = inf`), not a huge finite value. -/
theorem to_num_overflowing_literal :
    to_num (some (String.mk ('2' :: List.replicate 308 '0'))) =
      PyFloat.inf := by
  decide

/-- Coercion fidelity: `str.strip()` also removes non-ASCII-space
whitespace such as the vertical tab. -/
theorem to_num_strips_vertical_tab :
    to_num (some "123\x0b") = .finite (digitsToRat ['1', '2', '3']) := by
  decide

/-- C6 (amended): the estimated fee is `days_late × fee_per_day` with NO
clamp applied, where `days_late` is the whole-day difference between
`filing_date` and the due date (and is positive on every finding). -/
theorem late_fee_unclamped (fee : Int) (rows : List GstrRow) (r : LateRow)
    (h : r ∈ late_rows fee rows) :
    r.estimated_fee = r.days_late * fee
    ∧ r.days_late = dateDiff r.filing_date r.due_date
    ∧ 0 < r.days_late := by
  rw [late_rows, List.mem_filterMap] at h
  obtain ⟨g, hg, heq⟩ := h
  cases hm : g.month.bind parseMonthDue with
  | none => rw [hm] at heq; simp at heq
  | some due =>
    rw [hm] at heq
    cases hf : g.filing_date with
    | none => rw [hf] at heq; simp at heq
    | some filed =>
      rw [hf] at heq
      simp only [] at heq
      by_cases hd : 0 < dateDiff filed due
      · rw [if_pos hd] at heq
        cases heq
        exact ⟨rfl, rfl, hd⟩
      · rw [if_neg hd] at heq
        simp at heq

/-- Witness for C6's amended theorem at the concrete finding produced by
month `"2024-01"` filed 2024-02-20 at the default rate. -/
theorem late_fee_unclamped_witness :
    (1550 : Int) = 31 * 50
    ∧ (31 : Int) = dateDiff ⟨2024, 2, 20⟩ ⟨2024, 1, 20⟩
    ∧ (0 : Int) < 31 :=
  late_fee_unclamped 50 [⟨some "2024-01", some ⟨2024, 2, 20⟩⟩]
    ⟨some "2024-01", ⟨2024, 1, 20⟩, ⟨2024, 2, 20⟩, 31, 1550⟩ (by decide)

/-- C6 counterexample: one day late at the default rate gives a fee of 50,
below the claimed `[100, 5000]` clamp, so `estimated_fee` is not
`days_late × fee_per_day` clamped to that interval. -/
theorem late_fee_not_clamped_low :
    (late_rows 50 [⟨some "2024-01", some ⟨2024, 1, 21⟩⟩]).map
        LateRow.estimated_fee = [50]
    ∧ (late_rows 50 [⟨some "2024-01", some ⟨2024, 1, 21⟩⟩]).map
        LateRow.days_late = [1]
    ∧ (50 : Int) < 100 :=
  ⟨by decide, by decide, by decide⟩

/-- C2: per sales record, the mismatch check emits exactly one finding when
the invoice number has no GSTR-1 counterpart, and otherwise exactly one
finding per counterpart whose taxable value differs by more than the 1.00
tolerance — in particular none for a unique counterpart with identical
taxable value; the full findings list is the concatenation of these
per-record findings. -/
theorem mismatch_check_per_record (t : SalesTable) (g : Gstr1Table)
    (hsi : t.hasInvoiceNo = true) (hst : t.hasTaxable = true)
    (hgi : g.hasInvoiceNo = true) (hgt : g.hasTaxable = true) :
    mismatches t (some g) =
      .ok (t.rows.flatMap (mismatchFindingsFor t g.rows))
    ∧ ∀ s : SRow,
        (mismatchFindingsFor t g.rows s).length =
          if (g.rows.filter fun gr =>
              decide (gr.invoice_no = s.invoice_no)).isEmpty
          then 1
          else (g.rows.filter fun gr =>
              decide (gr.invoice_no = s.invoice_no)).countP
            fun gr => decide (1 < ratAbs (s.taxable_value - gr.taxable_value)) :=
  ⟨mismatches_ok t g hsi hgi hgt,
   fun s => mismatchFindingsFor_length t g.rows s hst⟩

/-- Witness for C2 at concrete tables: one sales record with no counterpart
yields exactly one finding; the same record with a unique identical-value
counterpart yields none. -/
theorem mismatch_check_per_record_witness :
    (mismatchFindingsFor ⟨true, true, true, true,
        [⟨some "A", none, none, 10, ""⟩]⟩ [⟨some "B", 10⟩]
      ⟨some "A", none, none, 10, ""⟩).length = 1
    ∧ (mismatchFindingsFor ⟨true, true, true, true,
        [⟨some "A", none, none, 10, ""⟩]⟩ [⟨some "A", 10⟩]
      ⟨some "A", none, none, 10, ""⟩).length = 0 := by
  constructor
  · have h := (mismatch_check_per_record ⟨true, true, true, true,
      [⟨some "A", none, none, 10, ""⟩]⟩ ⟨true, true, [⟨some "B", 10⟩]⟩
      rfl rfl rfl rfl).2 ⟨some "A", none, none, 10, ""⟩
    rw [h]
    decide
  · have h := (mismatch_check_per_record ⟨true, true, true, true,
      [⟨some "A", none, none, 10, ""⟩]⟩ ⟨true, true, [⟨some "A", 10⟩]⟩
      rfl rfl rfl rfl).2 ⟨some "A", none, none, 10, ""⟩
    rw [h]
    norm_num [List.filter, List.countP, List.countP.go, ratAbs]

/-- C9: when the Sales schema has no `invoice_no` column at all, the
mismatch check does not raise and emits every sales record as a mismatch
finding (the `gstr1_taxable = NA` fallback flags every row). -/
theorem mismatch_no_invoice_column_flags_all (t : SalesTable)
    (gstr1 : Option Gstr1Table) (h : t.hasInvoiceNo = false) :
    mismatches t gstr1 =
      .ok (t.rows.map fun s => ⟨s, salesTV t s, none⟩) := by
  simp only [mismatches, mismatchMerged, h, Bool.false_eq_true, if_false,
    Except.map]
  congr 1
  apply List.filter_eq_self.mpr
  intro m hm
  obtain ⟨s, _, rfl⟩ := List.mem_map.mp hm
  rfl

/-- Witness for C9 at a concrete two-row table with no `invoice_no`
column. -/
theorem mismatch_no_invoice_column_flags_all_witness :
    mismatches ⟨false, true, true, true,
        [⟨none, none, some "C", 10, "a"⟩, ⟨none, none, some "D", 25, "b"⟩]⟩
      none =
      .ok ((⟨false, true, true, true,
        [⟨none, none, some "C", 10, "a"⟩, ⟨none, none, some "D", 25, "b"⟩]⟩ :
          SalesTable).rows.map fun s =>
        ⟨s, salesTV ⟨false, true, true, true,
          [⟨none, none, some "C", 10, "a"⟩, ⟨none, none, some "D", 25, "b"⟩]⟩
            s, none⟩) :=
  mismatch_no_invoice_column_flags_all _ none rfl

/-- C10: when k ≥ 2 GSTR-1 rows share one sales record's invoice number and
each differs from it by more than the tolerance, that single sales record
appears k times among the mismatch findings, and the mismatch total counts
it k times. -/
theorem mismatch_counted_once_per_counterpart (t : SalesTable)
    (g : Gstr1Table) (s : SRow) (k : Nat)
    (hsi : t.hasInvoiceNo = true) (hst : t.hasTaxable = true)
    (hgi : g.hasInvoiceNo = true) (hgt : g.hasTaxable = true)
    (hrows : t.rows = [s])
    (hk : (g.rows.countP fun gr => decide (gr.invoice_no = s.invoice_no)) = k)
    (h2 : 2 ≤ k)
    (hdiff : ∀ gr ∈ g.rows, gr.invoice_no = s.invoice_no →
      1 < ratAbs (s.taxable_value - gr.taxable_value)) :
    (mismatches t (some g)).map List.length = .ok k := by
  rw [mismatches_ok t g hsi hgi hgt, hrows]
  simp only [List.flatMap_cons, List.flatMap_nil, List.append_nil, Except.map]
  congr 1
  rw [mismatchFindingsFor_length t g.rows s hst]
  set ms := g.rows.filter fun gr => decide (gr.invoice_no = s.invoice_no)
    with hms
  have hlen : ms.length = k := by
    rw [hms, ← List.countP_eq_length_filter]
    exact hk
  have hne : ms.isEmpty = false := by
    cases hmse : ms with
    | nil =>
      rw [hmse] at hlen
      simp at hlen
      omega
    | cons a tl => rfl
  rw [hne]
  simp only [Bool.false_eq_true, if_false]
  rw [← hlen]
  apply List.countP_eq_length.mpr
  intro gr hgr
  have hmem := List.mem_filter.mp (hms ▸ hgr)
  exact decide_eq_true
    (hdiff gr hmem.1 (of_decide_eq_true hmem.2))

/-- Witness for C10 at a concrete input with two GSTR-1 counterparts, each
off by more than the tolerance. -/
theorem mismatch_counted_once_per_counterpart_witness :
    (mismatches ⟨true, true, true, true, [⟨some "A", none, none, 100, ""⟩]⟩
      (some ⟨true, true, [⟨some "A", 200⟩, ⟨some "A", 300⟩]⟩)).map
        List.length = .ok 2 := by
  apply mismatch_counted_once_per_counterpart _ _
    ⟨some "A", none, none, 100, ""⟩ 2 rfl rfl rfl rfl rfl (by decide)
    (by decide)
  intro gr hgr hinv
  fin_cases hgr <;> norm_num [ratAbs]

/-- C7: both duplicate detectors flag every member of a duplicate group:
if N ≥ 2 sales rows share one invoice number, all N appear in `dup_by_no`;
and with all three combo columns present, all members of a group agreeing
on (`taxable_value`, `date`, `customer_gstin`) appear in `dup_by_combo`. -/
theorem duplicate_detectors_flag_all_members (t : SalesTable) :
    (∀ v : Option String, t.hasInvoiceNo = true →
      2 ≤ (t.rows.countP fun r => decide (r.invoice_no = v)) →
      (dup_by_no t).countP (fun r => decide (r.invoice_no = v)) =
        t.rows.countP fun r => decide (r.invoice_no = v))
    ∧ (∀ (tv : Rat) (d : Option Date) (c : Option String),
      t.hasTaxable = true → t.hasDate = true → t.hasCustomer = true →
      2 ≤ (t.rows.countP fun r =>
        decide (r.taxable_value = tv ∧ r.date = d ∧ r.customer_gstin = c)) →
      (dup_by_combo t).countP (fun r =>
        decide (r.taxable_value = tv ∧ r.date = d ∧ r.customer_gstin = c)) =
        t.rows.countP fun r =>
          decide (r.taxable_value = tv ∧ r.date = d ∧ r.customer_gstin = c)) := by
  constructor
  · intro v hinv hN
    unfold dup_by_no
    rw [hinv, if_pos rfl]
    apply countP_filter_of_imp
    intro a ha hpa
    have hav : a.invoice_no = v := of_decide_eq_true hpa
    have hcnt : invKeyCount t a =
        t.rows.countP fun r => decide (r.invoice_no = v) := by
      unfold invKeyCount
      apply List.countP_congr
      intro x _
      simp [hav]
    apply decide_eq_true
    rw [hcnt]
    exact hN
  · intro tv d c h1 h2 h3 hN
    unfold dup_by_combo
    rw [h1]
    simp only [Bool.true_or, if_true]
    apply countP_filter_of_imp
    intro a ha hpa
    obtain ⟨ha1, ha2, ha3⟩ := of_decide_eq_true hpa
    have hcnt : t.rows.countP (comboEq t a) =
        t.rows.countP fun r =>
          decide (r.taxable_value = tv ∧ r.date = d ∧ r.customer_gstin = c) := by
      apply List.countP_congr
      intro x _
      simp only [comboEq, h1, h2, h3, Bool.not_true, Bool.false_or,
        Bool.and_eq_true, decide_eq_true_eq]
      rw [ha1, ha2, ha3]
      constructor
      · rintro ⟨⟨hx1, hx2⟩, hx3⟩
        exact ⟨hx1.symm, hx2.symm, hx3.symm⟩
      · rintro ⟨hx1, hx2, hx3⟩
        exact ⟨⟨hx1.symm, hx2.symm⟩, hx3.symm⟩
    apply decide_eq_true
    rw [hcnt]
    exact hN

/-- Witness for C7 at a concrete table whose two rows share both the
invoice number and the full combo key. -/
theorem duplicate_detectors_flag_all_members_witness :
    (dup_by_no ⟨true, true, true, true,
        [⟨some "X", none, some "C", 100, "a"⟩,
         ⟨some "X", none, some "C", 100, "b"⟩]⟩).countP
      (fun r => decide (r.invoice_no = some "X")) = 2
    ∧ (dup_by_combo ⟨true, true, true, true,
        [⟨some "X", none, some "C", 100, "a"⟩,
         ⟨some "X", none, some "C", 100, "b"⟩]⟩).countP
      (fun r => decide (r.taxable_value = 100 ∧ r.date = none
        ∧ r.customer_gstin = some "C")) = 2 := by
  constructor
  · have h := (duplicate_detectors_flag_all_members ⟨true, true, true, true,
      [⟨some "X", none, some "C", 100, "a"⟩,
       ⟨some "X", none, some "C", 100, "b"⟩]⟩).1 (some "X") rfl (by decide)
    rw [h]
    decide
  · have h := (duplicate_detectors_flag_all_members ⟨true, true, true, true,
      [⟨some "X", none, some "C", 100, "a"⟩,
       ⟨some "X", none, some "C", 100, "b"⟩]⟩).2 100 none (some "C")
      rfl rfl rfl (by decide)
    rw [h]
    decide

/-- C8 (amended): the summary's duplicate total is the plain sum
`len(dup_by_no) + len(dup_by_combo)`; a record flagged by both detectors is
counted twice there, and the distinct-union count (what the PDF's duplicate
table is built from) can only be smaller or equal. -/
theorem summary_duplicate_total_is_sum (t : SalesTable) :
    total_duplicates t = (dup_by_no t).length + (dup_by_combo t).length
    ∧ duplicates_union_distinct t ≤ total_duplicates t := by
  refine ⟨rfl, ?_⟩
  have h := (List.dedup_sublist ((dup_by_no t) ++ (dup_by_combo t))).length_le
  simpa [duplicates_union_distinct, total_duplicates,
    List.length_append] using h

/-- C8 counterexample: two rows identical on all canonical columns but
distinct records are flagged by both detectors; the summary counts 4
duplicates while the de-duplicated union holds 2 distinct records. -/
theorem summary_double_counts_duplicates :
    total_duplicates ⟨true, true, true, true,
      [⟨some "I1", none, some "C", 100, "a"⟩,
       ⟨some "I1", none, some "C", 100, "b"⟩]⟩ = 4
    ∧ duplicates_union_distinct ⟨true, true, true, true,
      [⟨some "I1", none, some "C", 100, "a"⟩,
       ⟨some "I1", none, some "C", 100, "b"⟩]⟩ = 2 :=
  ⟨by decide, by decide⟩

set_option maxRecDepth 100000 in
/-- C4 counterexample: an exact (normalized) alias match is NOT taken
first.  Column `"billno"` exactly matches alias `"billno"`, yet
`fuzzy_match` returns `"invoice_num"` — a column that is no exact match of
any alias — because the earlier alias `"invoice_no"` already clears the
fuzzy cutoff against it. -/
theorem fuzzy_match_not_exact_first :
    fuzzy_match ["invoice_num", "billno"] ["invoice_no", "billno"] =
      some "invoice_num"
    ∧ norm_col "billno" = norm_col "billno"
    ∧ ("billno" : String) ∈ ["invoice_num", "billno"]
    ∧ ("billno" : String) ∈ ["invoice_no", "billno"]
    ∧ (∀ cand ∈ ["invoice_no", "billno"],
        norm_col "invoice_num" ≠ norm_col cand)
    ∧ ("invoice_num" : String) ≠ "billno" :=
  ⟨by decide, rfl, by decide, by decide, by decide, by decide⟩

/-- C4 (amended): the matcher walks the alias list in order and returns,
for the first alias for which `get_close_matches` finds any column clearing
the 0.6 cutoff, that alias's best-scoring column (looked up in the
normalized-header dict); it returns unmapped only when no alias clears the
cutoff; and the required example — aliases `["invoice_no","billno"]`
against the single column `"Bill No."` — resolves to that column. -/
theorem fuzzy_match_alias_ordered :
    (∀ (columns : List String) (c : String) (cs : List String) (k : String),
      bestMatch (norm_col c).toList ((cols_norm columns).map Prod.fst) =
          some k →
      fuzzy_match columns (c :: cs) = dictGet (cols_norm columns) k)
    ∧ (∀ (columns : List String) (c : String) (cs : List String),
      bestMatch (norm_col c).toList ((cols_norm columns).map Prod.fst) =
          none →
      fuzzy_match columns (c :: cs) = fuzzy_match columns cs)
    ∧ (∀ columns : List String, fuzzy_match columns [] = none)
    ∧ fuzzy_match ["Bill No."] ["invoice_no", "billno"] = some "Bill No." := by
  refine ⟨?_, ?_, fun _ => rfl, ?_⟩
  · intro columns c cs k h
    have hk : k ∈ (cols_norm columns).map Prod.fst := bestMatch_mem _ _ _ h
    obtain ⟨v, hv⟩ := dictGet_isSome hk
    have h2 : bestMatch (norm_col c).data
        ((cols_norm columns).map Prod.fst) = some k := h
    simp [fuzzy_match, List.findSome?_cons, h2, hv]
  · intro columns c cs h
    have h2 : bestMatch (norm_col c).data
        ((cols_norm columns).map Prod.fst) = none := h
    simp [fuzzy_match, List.findSome?_cons, h2]
  · set_option maxRecDepth 100000 in decide

/-- Witness for C4's amended theorem: the first alias `"billno"` clears the
cutoff against the normalized column `"Bill No."`, so the matcher returns
that alias's best column regardless of the later alias. -/
theorem fuzzy_match_alias_ordered_witness :
    fuzzy_match ["Bill No."] ["billno", "zzz"] =
      dictGet (cols_norm ["Bill No."]) "billno" :=
  fuzzy_match_alias_ordered.1 ["Bill No."] "billno" ["zzz"] "billno"
    (by set_option maxRecDepth 100000 in decide)
